import Mathlib

/-!
Verification development for the message extraction engine of
zope.app.locales (file src/zope/app/locales/extract.py).

The Python source is embedded shallowly:
* the `TokenEater` lexical state machine becomes an explicit state type
  `EaterSt` with a step function `eaterStep`;
* `POTEntry` / `POTMaker` become structures with pure update functions;
* machine strings are Lean `String`s (Python compares strings by code
  points, which agrees with the order on `String` used here), line
  numbers are `Int` (Python integers), byte output is `List Nat`;
* the helpers imported from `zope.app.locales.pygettext`
  (`safe_eval`, `normalize`, the escape table set up by `make_escapes`)
  are not part of the provided sources, so they are modelled from the
  specification, as marked in their doc comments.
-/

namespace ZopeLocales

/-! ## Bytes and UTF-8 -/

/-- UTF-8 encoding of one code point, as a list of byte values. -/
def utf8Char (n : Nat) : List Nat :=
  if n < 128 then [n]
  else if n < 2048 then [192 + n / 64, 128 + n % 64]
  else if n < 65536 then [224 + n / 4096, 128 + (n / 64) % 64, 128 + n % 64]
  else [240 + n / 262144, 128 + (n / 4096) % 64, 128 + (n / 64) % 64, 128 + n % 64]

/-- UTF-8 encoding of a string, modelling the Python `str.encode` calls
with the fixed charset `UTF-8`. -/
def utf8 (s : String) : List Nat :=
  (s.data.map (fun c => utf8Char c.toNat)).flatten

/-- Characters treated as whitespace by Python `str.strip()`
(the code points for which `str.isspace` holds). -/
def pySpace (c : Char) : Bool :=
  c ∈ [' ', '\t', '\n', '\r', '\x0b', '\x0c',
       '\u001c', '\u001d', '\u001e', '\u001f',
       '\u0085', ' ', ' ',
       ' ', ' ', ' ', ' ', ' ',
       ' ', ' ', ' ', ' ', ' ', ' ',
       ' ', ' ', ' ', ' ', '　']

/-- Python `str.strip()`: remove leading and trailing whitespace. -/
def pyStrip (s : String) : String :=
  String.mk (((s.data.dropWhile pySpace).reverse.dropWhile pySpace).reverse)

/-! ## The Escaper/Codec, modelled from the spec

The functions `make_escapes` and `normalize` live in
`zope.app.locales.pygettext`, which is not among the provided source
files; `extract.py` only imports them.  They are therefore modelled
from the specification (section 4.3: escape backslash, double quote,
newline and tab; render any other non-printable or non-ASCII byte as a
three digit octal escape; printable ASCII passes through), with the
behaviour pinned by the `POTEntry.write` doctests inside `extract.py`.
-/

/-- Modelled from the spec: the escape table built by
`pygettext.make_escapes(0)` applied to one byte value. -/
def escapeByte (b : Nat) : List Nat :=
  if b = 92 then [92, 92]
  else if b = 34 then [92, 34]
  else if b = 9 then [92, 116]
  else if b = 10 then [92, 110]
  else if 32 ≤ b ∧ b ≤ 126 then [b]
  else [92, 48 + b / 64, 48 + (b / 8) % 8, 48 + b % 8]

/-- Escape every byte of a line. -/
def escapeBytes (l : List Nat) : List Nat :=
  (l.map escapeByte).flatten

/-- Split a byte sequence on the newline byte, like Python
`bytes.split(b"\n")`; the result is always non-empty. -/
def splitNL : List Nat → List (List Nat)
  | [] => [[]]
  | b :: rest =>
    if b = 10 then [] :: splitNL rest
    else
      match splitNL rest with
      | [] => [[b]]
      | l :: ls => (b :: l) :: ls

/-- Append a newline byte to the last line of a list of lines. -/
def appendNLLast : List (List Nat) → List (List Nat)
  | [] => []
  | [l] => [l ++ [10]]
  | l :: rest => l :: appendNLLast rest

/-- Modelled from the spec: `pygettext.normalize`, quoting and escaping
a byte string for the output document.  A single line is escaped and
wrapped in double quotes; for several lines the result starts with an
empty quoted line and each line is quoted independently, a trailing
empty line being folded into its predecessor as a literal newline. -/
def normalize (s : List Nat) : List Nat :=
  match splitNL s with
  | [l] => [34] ++ escapeBytes l ++ [34]
  | lines =>
    let lines2 := if lines.getLast? = some ([] : List Nat)
      then appendNLLast lines.dropLast else lines
    [34, 34, 10, 34] ++
      List.intercalate [92, 110, 34, 10, 34] (lines2.map escapeBytes) ++ [34]

/-! ## The safe literal evaluator, modelled from the spec -/

/-- Modelled from the spec: decoding of the usual backslash escapes of
a string literal body, a helper for `safe_eval` below. -/
def unescapePy : List Char → List Char
  | [] => []
  | '\\' :: c :: rest =>
    if c = 'n' then '\n' :: unescapePy rest
    else if c = 't' then '\t' :: unescapePy rest
    else if c = '\\' then '\\' :: unescapePy rest
    else if c = '\x27' then '\x27' :: unescapePy rest
    else if c = '"' then '"' :: unescapePy rest
    else '\\' :: c :: unescapePy rest
  | c :: rest => c :: unescapePy rest

/-- Modelled from the spec: `pygettext.safe_eval`, the
safe-literal-evaluator that decodes one string literal token of the
host language (an optional string kind letter, the surrounding quotes,
and backslash escapes).  `pygettext` is not among the provided
source files. -/
def safe_eval (t : String) : String :=
  let cs := t.data
  let cs := match cs with
    | c :: rest =>
      if c ∈ ['u', 'U', 'b', 'B', 'r', 'R', 'f', 'F'] then rest else cs
    | [] => cs
  let cs := cs.drop 1
  String.mk (unescapePy cs.dropLast)

/-! ## The token scanner `TokenEater` -/

/-- Token kinds, following the classification of the Python `tokenize`
module that `TokenEater` inspects: identifiers, operators, string
literals, and everything else. -/
inductive TokType where
  | NAME
  | OP
  | STRING
  | OTHER
deriving DecidableEq

/-- One lexical token `(type, text, start line)` as fed to
`TokenEater.__call__`. -/
structure Tok where
  ttype : TokType
  tstring : String
  lineno : Int
deriving DecidableEq

/-- A message id together with its optional default text, modelling
`zope.i18nmessageid.Message`; equality and hashing of the Python class
use only the text, which is modelled by always looking entries up by
the `text` field. -/
structure Msg where
  text : String
  default : Option String
deriving DecidableEq

/-- Occurrence dictionary of one message: `(file, line)` keys mapped to
the `isdocstring` flag, in insertion order like a Python dict. -/
abbrev Occs := List ((Option String × Int) × Bool)

/-- The three states of the scanner state machine. -/
inductive Mode where
  | waiting
  | keywordseen
  | openseen
deriving DecidableEq

/-- The mutable state of a `TokenEater` instance. -/
structure EaterSt where
  messages : List (Msg × Occs)
  mode : Mode
  data : List String
  msgid : String
  dflt : Option String
  lineno : Int
  curfile : Option String
deriving DecidableEq

/-- The state built by `TokenEater.__init__`. -/
def initEater : EaterSt :=
  { messages := [], mode := Mode.waiting, data := [], msgid := "",
    dflt := none, lineno := -1, curfile := none }

/-- Truthiness of the `__default` slot: `None` and the empty string are
falsy. -/
def truthyD : Option String → Bool
  | none => false
  | some s => decide (s ≠ "")

/-- Update of `TokenEater.__messages` performed by `__addentry`:
`self.__messages.setdefault(msg, {})[entry] = isdocstring`.  The dict
is keyed by the message text (Python `Message` equality); a fresh key
keeps the first `Msg` object together with its default. -/
def addMsgEntry (ms : List (Msg × Occs)) (m : Msg) (entry : Option String × Int)
    (isdocstring : Bool) : List (Msg × Occs) :=
  let ms1 := if ms.any (fun p => decide (p.1.text = m.text)) then ms else ms ++ [(m, [])]
  ms1.map (fun p =>
    if p.1.text = m.text then
      (p.1,
        if p.2.any (fun q => decide (q.1 = entry)) then
          p.2.map (fun q => if q.1 = entry then (entry, isdocstring) else q)
        else p.2 ++ [(entry, isdocstring)])
    else p)

/-- `TokenEater.__addentry` with the default `lineno=None`,
`isdocstring=0` arguments used by `__openseen`. -/
def addentry (st : EaterSt) (msg : String) (dflt : Option String) : EaterSt :=
  { st with messages := addMsgEntry st.messages ⟨msg, dflt⟩ (st.curfile, st.lineno) false }

/-- The message and default recorded when `__openseen` finalizes a
call, or `none` when there were no strings inside the call and the
entry is ignored. -/
def finalizeMsg (st : EaterSt) : Option (String × Option String) :=
  if st.data ≠ [] ∨ st.msgid ≠ "" then
    some (if truthyD st.dflt then (st.msgid, st.dflt)
      else if st.msgid ≠ "" then
        (st.msgid, if st.data ≠ [] then some (String.join st.data) else none)
      else (String.join st.data, none))
  else none

/-- The state update of the finalize branch of `__openseen`. -/
def finalizeCall (st : EaterSt) : EaterSt :=
  match finalizeMsg st with
  | some (m, d) => addentry st m d
  | none => st

/-- `TokenEater.__waiting`. -/
def waitingStep (st : EaterSt) (t : Tok) : EaterSt :=
  if t.ttype = TokType.NAME ∧ t.tstring = "_" then { st with mode := Mode.keywordseen }
  else st

/-- `TokenEater.__keywordseen`. -/
def keywordseenStep (st : EaterSt) (t : Tok) : EaterSt :=
  if t.ttype = TokType.OP ∧ t.tstring = "(" then
    { st with
      data := [], msgid := "", dflt := none, lineno := t.lineno,
      mode := Mode.openseen }
  else { st with mode := Mode.waiting }

/-- `TokenEater.__openseen`. -/
def openseenStep (st : EaterSt) (t : Tok) : EaterSt :=
  if (t.ttype = TokType.OP ∧ t.tstring = ")") ∨
      (t.ttype = TokType.NAME ∧ t.tstring = "mapping") then
    let st1 := finalizeCall st
    { st1 with mode := Mode.waiting }
  else if t.ttype = TokType.OP ∧ t.tstring = "," then
    let st1 :=
      if st.msgid = "" then { st with msgid := String.join st.data }
      else if ¬ truthyD st.dflt ∧ st.data ≠ [] then
        { st with dflt := some (String.join st.data) }
      else st
    { st1 with data := [] }
  else if t.ttype = TokType.STRING then
    { st with data := st.data ++ [safe_eval t.tstring] }
  else st

/-- One call of the `TokenEater` on a token, dispatching on the current
state exactly as the Python callback slot `self.__state` does. -/
def eaterStep (st : EaterSt) (t : Tok) : EaterSt :=
  match st.mode with
  | Mode.waiting => waitingStep st t
  | Mode.keywordseen => keywordseenStep st t
  | Mode.openseen => openseenStep st t

/-- Feed a whole token stream to the scanner. -/
def eaterRun (st : EaterSt) (ts : List Tok) : EaterSt :=
  ts.foldl eaterStep st

/-! ## The catalog: `POTEntry` and `POTMaker` -/

/-- One message entry of the POT file.  The `msgid` is the message
text; `msgidDefault` models the optional `default` carried by a
`zope.i18nmessageid.Message` msgid (`none` for a plain string msgid);
`locs` models the set `self._locations`, kept as a duplicate-free list
because a Python set has no observable order (the only reader,
`locations`, sorts it). -/
structure POTEntry where
  msgid : String
  msgidDefault : Option String
  comments : String
  locs : List (String × Int)
deriving DecidableEq

/-- Python comparison of two `(file, line)` tuples, as a relation:
lexicographic on the file text (code point order) and then on the line
number. -/
def pairLeP (x y : String × Int) : Prop :=
  toLex x ≤ toLex y

instance : DecidableRel pairLeP :=
  fun x y => inferInstanceAs (Decidable (toLex x ≤ toLex y))

/-- The lazy property `POTEntry.locations`:
`tuple(sorted(self._locations))`.  The `sorted` builtin is modelled by
insertion sort; the stored pairs are distinct, so the sorted tuple is
the same whichever sorting algorithm produces it. -/
def locations (e : POTEntry) : List (String × Int) :=
  List.insertionSort pairLeP e.locs

/-- `POTEntry.addComment`. -/
def addComment (e : POTEntry) (comment : String) : POTEntry :=
  { e with comments := e.comments ++ comment ++ "\n" }

/-- `POTEntry.addLocationComment`.  On the modelled POSIX platform
`os.sep` is already the forward slash, so the
`filename.replace(os.sep, '/')` call is the identity and is omitted;
the insertion into the set is dropped when the pair is present. -/
def addLocationComment (e : POTEntry) (filename : String) (line : Int) : POTEntry :=
  { e with
    locs := if (filename, line) ∈ e.locs then e.locs else e.locs ++ [(filename, line)] }

/-- `strip_base_dir` from extract.py: strip `base_dir` from `filename`
exactly when `filename` starts with it. -/
def strip_base_dir (filename base_dir : String) : String :=
  if base_dir.data.isPrefixOf filename.data then
    String.mk (filename.data.drop base_dir.data.length)
  else filename

/-- Membership test `msgid in self.catalog`; the catalog dict is keyed
by the message text (`Message` compares as its text). -/
def catHas (cat : List POTEntry) (t : String) : Bool :=
  cat.any (fun e => decide (e.msgid = t))

/-- Update every catalog entry whose key is `t` (there is at most one
in any catalog built by `potAdd`). -/
def catUpd (cat : List POTEntry) (t : String) (f : POTEntry → POTEntry) : List POTEntry :=
  cat.map (fun e => if e.msgid = t then f e else e)

/-- The file name stored by `POTMaker.add` for one occurrence: the
base directory is stripped only when it is truthy (neither `None` nor
empty). -/
def locFile (base_dir : Option String) (fl : String × Int) : String :=
  match base_dir with
  | some b => if b ≠ "" then strip_base_dir fl.1 b else fl.1
  | none => fl.1

/-- `POTEntry.__init__` applied to a key, as done by `POTMaker.add`
for a text not yet in the catalog: no comments and an empty location
set. -/
def mkPOTEntry (m : Msg) : POTEntry :=
  { msgid := m.text, msgidDefault := m.default, comments := "", locs := [] }

/-- The body of the `POTMaker.add` loop for one `(msgid, locations)`
pair of the incoming mapping. -/
def addOneMsg (cat : List POTEntry) (m : Msg) (locations : List (String × Int))
    (base_dir : Option String) : List POTEntry :=
  if m.text = "" then cat
  else
    let cat1 := if catHas cat m.text then cat else cat ++ [mkPOTEntry m]
    locations.foldl
      (fun c fl =>
        catUpd c m.text (fun e => addLocationComment e (locFile base_dir fl) fl.2))
      cat1

/-- `POTMaker.add(strings, base_dir)`; the `strings` mapping is a list
of key/occurrence-list pairs in iteration order, and `base_dir` is
applied only when truthy (neither `None` nor empty). -/
def potAdd (cat : List POTEntry) (strings : List (Msg × List (String × Int)))
    (base_dir : Option String) : List POTEntry :=
  strings.foldl (fun c p => addOneMsg c p.1 p.2 base_dir) cat

/-- Helper for the proofs: the per-entry effect of the location loop
of `POTMaker.add` on one catalog entry (the loop only touches entries
whose key is the added text). -/
def entryApply (t : String) (locs : List (String × Int)) (bd : Option String)
    (e : POTEntry) : POTEntry :=
  locs.foldl
    (fun e2 fl =>
      if e2.msgid = t then addLocationComment e2 (locFile bd fl) fl.2 else e2) e

/-- Helper for the proofs: one mapping pair has been fully merged into
the catalog: its key is present (unless the text is empty, which is
skipped) and every entry carrying the key already stores every
occurrence of the pair. -/
def AddDone (cat : List POTEntry) (p : Msg × List (String × Int))
    (bd : Option String) : Prop :=
  p.1.text = "" ∨
    (catHas cat p.1.text = true ∧
      ∀ fl ∈ p.2, ∀ e ∈ cat, e.msgid = p.1.text → (locFile bd fl, fl.2) ∈ e.locs)

/-! ## Ordering and rendering of entries -/

/-- The comparison key of `POTEntry.__lt__`: the pair
`(self.locations, self.msgid)` under lexicographic tuple comparison. -/
def entryKey (e : POTEntry) : Lex ((List (Lex (String × Int))) × String) :=
  toLex ((locations e).map toLex, e.msgid)

/-- `POTEntry.__lt__`. -/
def entryLt (a b : POTEntry) : Bool :=
  decide (entryKey a < entryKey b)

/-- The sort relation of `sorted(self.catalog.values())` in
`POTMaker.write`: the reflexive closure of `POTEntry.__lt__`, which
on the linearly ordered comparison keys is exactly `≤`. -/
def entryLeP (a b : POTEntry) : Prop :=
  entryKey a ≤ entryKey b

instance : DecidableRel entryLeP :=
  fun a b => inferInstanceAs (Decidable (entryKey a ≤ entryKey b))

/-- The order in which `POTMaker.write` emits the catalog entries:
`sorted(self.catalog.values())`, modelled by insertion sort; catalogs
are keyed by message text, so the keys of distinct entries differ and
the sorted order is unique. -/
def writeOrder (cat : List POTEntry) : List POTEntry :=
  List.insertionSort entryLeP cat

/-- One `#: file:line` location comment line, as bytes. -/
def locLine (fl : String × Int) : List Nat :=
  utf8 ("#: " ++ fl.1 ++ ":" ++ toString fl.2) ++ [10]

/-- The `#. Default: "..."` comment block of `POTEntry.write`: the
default text is stripped of surrounding whitespace, encoded, fed
through `normalize`, and re-split on newlines; the first line carries
the label and continuation lines are indented. -/
def defaultCommentBytes (d : String) : List Nat :=
  match splitNL (normalize (utf8 (pyStrip d))) with
  | [] => []
  | l :: rest =>
    (utf8 ("#. Default: ") ++ l ++ [10]) ++
      (rest.map (fun li => utf8 ("#.  ") ++ li ++ [10])).flatten

/-- `POTEntry.write`: comments, sorted location comments, the optional
default comment block, the msgid line and an empty msgstr line,
followed by a blank separator line. -/
def entryWriteBytes (e : POTEntry) : List Nat :=
  utf8 e.comments
  ++ ((locations e).map locLine).flatten
  ++ (match e.msgidDefault with
      | some d => defaultCommentBytes d
      | none => [])
  ++ utf8 ("msgid ") ++ normalize (utf8 e.msgid) ++ [10]
  ++ utf8 ("msgstr \"\"") ++ [10]
  ++ [10]

/-- The entry part of `POTMaker.write`: every entry written in sorted
order (the header, which only depends on run metadata, precedes it). -/
def writeEntriesBytes (cat : List POTEntry) : List Nat :=
  ((writeOrder cat).map entryWriteBytes).flatten

/-- The data of a `POTEntry` that `entryWriteBytes` can observe: text,
default, comments, and the sorted location tuple (the occurrence set). -/
def canonEntry (e : POTEntry) : String × Option String × String × List (String × Int) :=
  (e.msgid, e.msgidDefault, e.comments, locations e)

/-- The comparison key of `POTEntry.__lt__` read off a canonical
entry; `entryKey e` is `canonKey (canonEntry e)` by definition. -/
def canonKey (c : String × Option String × String × List (String × Int)) :
    Lex ((List (Lex (String × Int))) × String) :=
  toLex (c.2.2.2.map toLex, c.1)

/-! ## `POTMaker.__init__` and the header template -/

/-- The module constant `DEFAULT_POT_HEADER` of extract.py. -/
def DEFAULT_POT_HEADER : String :=
  "##############################################################################\n#\n# Copyright (c) 2003-2019 Zope Foundation and Contributors.\n# All Rights Reserved.\n#\n# This software is subject to the provisions of the Zope Public License,\n# Version 2.1 (ZPL).  A copy of the ZPL should accompany this distribution.\n# THIS SOFTWARE IS PROVIDED \"AS IS\" AND ANY AND ALL EXPRESS OR IMPLIED\n# WARRANTIES ARE DISCLAIMED, INCLUDING, BUT NOT LIMITED TO, THE IMPLIED\n# WARRANTIES OF TITLE, MERCHANTABILITY, AGAINST INFRINGEMENT, AND FITNESS\n# FOR A PARTICULAR PURPOSE.\n#\n##############################################################################\nmsgid \"\"\nmsgstr \"\"\n\"Project-Id-Version: %(version)s\\n\"\n\"POT-Creation-Date: %(time)s\\n\"\n\"PO-Revision-Date: YEAR-MO-DA HO:MI+ZONE\\n\"\n\"Last-Translator: FULL NAME <EMAIL@ADDRESS>\\n\"\n\"Language-Team: Zope 3 Developers <zope-dev@zope.org>\\n\"\n\"MIME-Version: 1.0\\n\"\n\"Content-Type: text/plain; charset=%(charset)s\\n\"\n\"Content-Transfer-Encoding: %(encoding)s\\n\"\n\"Generated-By: zope/app/locales/extract.py\\n\"\n\n"

/-- The header selection of `POTMaker.__init__`, with the file system
abstracted as a partial map from paths to file contents (`none` means
the path does not exist).  A supplied header template path that does
not exist raises `ValueError` (modelled as `Except.error`), so the
constructor fails before any catalog is built or output written; with
no template the built-in default header is used. -/
def potMakerInit (header_template : Option String) (fs : String → Option String) :
    Except String String :=
  match header_template with
  | some p =>
    match fs p with
    | some contents => Except.ok contents
    | none => Except.error ("Path " ++ p ++ " does not exist.")
  | none => Except.ok DEFAULT_POT_HEADER

/-! ## Claim-worded finalize descriptions for C2 -/

/-- Modelled from the wording of claim C2 (and spec section 4.1): at
finalization a committed message text is used with whatever default
was committed; otherwise buffer content with no comma seen becomes the
message text with no default; otherwise nothing was collected and the
call is discarded. -/
def finalizeClaimC2 (st : EaterSt) : Option (String × Option String) :=
  if st.msgid ≠ "" then some (st.msgid, st.dflt)
  else if st.data ≠ [] then some (String.join st.data, none)
  else none

/-- Modelled from the amended wording of claim C2: if a nonempty
default text was committed, the committed message text is used with
it; otherwise a committed nonempty message text is used, taking the
joined leftover buffer as the default when the buffer is non-empty and
no default otherwise; otherwise the joined buffer becomes the message
text with no default; with an empty buffer and no committed message
text the call is discarded. -/
def finalizeSpecC2 (st : EaterSt) : Option (String × Option String) :=
  if st.data = [] ∧ st.msgid = "" then none
  else if truthyD st.dflt then some (st.msgid, st.dflt)
  else if st.msgid ≠ "" then
    some (st.msgid, if st.data = [] then none else some (String.join st.data))
  else some (String.join st.data, none)

/-! ## Theorems -/

/-- Helper: the recorded message and default of the code agree with
the amended finalize description, for every scanner state. -/
theorem finalizeMsg_eq_spec (st : EaterSt) : finalizeMsg st = finalizeSpecC2 st := by
  unfold finalizeMsg finalizeSpecC2
  by_cases hd : st.data = [] <;> by_cases hm : st.msgid = "" <;>
    by_cases ht : truthyD st.dflt <;> simp [hd, hm, ht]

/-- C1: fed the token stream of the single line
`_(u'hello ${name}', u'buenos dias', {'name': 'Bob'}); _(u'hi ${name}',
mapping={'name': 'Bob'}); _('k, bye', ''); _('kthxbye')`, the scanner
records exactly four keys: `hello ${name}` with default `buenos dias`,
`hi ${name}` with absent default, `k, bye` with the present empty
default, and `kthxbye` with absent default, each with the single
occurrence `(None, 1)`. -/
theorem c1_scanner_four_keys :
    (eaterRun initEater
      [⟨TokType.NAME, "_", 1⟩, ⟨TokType.OP, "(", 1⟩,
       ⟨TokType.STRING, "u\x27hello ${name}\x27", 1⟩, ⟨TokType.OP, ",", 1⟩,
       ⟨TokType.STRING, "u\x27buenos dias\x27", 1⟩, ⟨TokType.OP, ",", 1⟩,
       ⟨TokType.OP, "\x7b", 1⟩, ⟨TokType.STRING, "\x27name\x27", 1⟩,
       ⟨TokType.OP, ":", 1⟩, ⟨TokType.STRING, "\x27Bob\x27", 1⟩,
       ⟨TokType.OP, "\x7d", 1⟩, ⟨TokType.OP, ")", 1⟩, ⟨TokType.OP, ";", 1⟩,
       ⟨TokType.NAME, "_", 1⟩, ⟨TokType.OP, "(", 1⟩,
       ⟨TokType.STRING, "u\x27hi ${name}\x27", 1⟩, ⟨TokType.OP, ",", 1⟩,
       ⟨TokType.NAME, "mapping", 1⟩, ⟨TokType.OP, "=", 1⟩,
       ⟨TokType.OP, "\x7b", 1⟩, ⟨TokType.STRING, "\x27name\x27", 1⟩,
       ⟨TokType.OP, ":", 1⟩, ⟨TokType.STRING, "\x27Bob\x27", 1⟩,
       ⟨TokType.OP, "\x7d", 1⟩, ⟨TokType.OP, ")", 1⟩, ⟨TokType.OP, ";", 1⟩,
       ⟨TokType.NAME, "_", 1⟩, ⟨TokType.OP, "(", 1⟩,
       ⟨TokType.STRING, "\x27k, bye\x27", 1⟩, ⟨TokType.OP, ",", 1⟩,
       ⟨TokType.STRING, "\x27\x27", 1⟩, ⟨TokType.OP, ")", 1⟩,
       ⟨TokType.OP, ";", 1⟩,
       ⟨TokType.NAME, "_", 1⟩, ⟨TokType.OP, "(", 1⟩,
       ⟨TokType.STRING, "\x27kthxbye\x27", 1⟩, ⟨TokType.OP, ")", 1⟩,
       ⟨TokType.OTHER, "", 1⟩]).messages
    = [(⟨"hello ${name}", some ("buenos dias")⟩, [((none, 1), false)]),
       (⟨"hi ${name}", none⟩, [((none, 1), false)]),
       (⟨"k, bye", some ("")⟩, [((none, 1), false)]),
       (⟨"kthxbye", none⟩, [((none, 1), false)])] := by
  decide

/-- C9: for `_('', 'x')` the scanner records the second literal as the
message text with no default; the empty first argument neither becomes
the message text nor turns `x` into a default, and the call is not
discarded. -/
theorem c9_empty_first_argument :
    (eaterRun initEater
      [⟨TokType.NAME, "_", 1⟩, ⟨TokType.OP, "(", 1⟩,
       ⟨TokType.STRING, "\x27\x27", 1⟩, ⟨TokType.OP, ",", 1⟩,
       ⟨TokType.STRING, "\x27x\x27", 1⟩, ⟨TokType.OP, ")", 1⟩]).messages
    = [(⟨"x", none⟩, [((none, 1), false)])] := by
  decide

/-- C6: `strip_base_dir` removes exactly the `base_dir` text from a
path that starts with it and leaves any other path unchanged, and the
`POTMaker.add` example of the spec stores `file2.py:2`, `file1.py:3`
and `notbasedir/file3.py:5`. -/
theorem c6_base_dir_stripping :
    (∀ f b : String, b.data.isPrefixOf f.data →
      b ++ strip_base_dir f b = f)
    ∧ (∀ f b : String, ¬ b.data.isPrefixOf f.data →
      strip_base_dir f b = f)
    ∧ potAdd []
        [(⟨"msgid1", none⟩,
          [("basedir/file2.py", 2), ("file1.py", 3), ("notbasedir/file3.py", 5)])]
        (some ("basedir/"))
      = [{ msgid := "msgid1", msgidDefault := none, comments := "",
           locs := [("file2.py", 2), ("file1.py", 3), ("notbasedir/file3.py", 5)] }] := by
  refine ⟨fun f b h => ?_, fun f b h => ?_, by decide⟩
  · rw [List.isPrefixOf_iff_prefix] at h
    obtain ⟨t, ht⟩ := h
    have hd : (strip_base_dir f b).data = f.data.drop b.data.length := by
      rw [strip_base_dir, if_pos (List.isPrefixOf_iff_prefix.mpr ⟨t, ht⟩)]
    apply String.toList_inj.mp
    show (b ++ strip_base_dir f b).data = f.data
    rw [String.data_append, hd, ← ht, List.drop_left]
  · rw [strip_base_dir, if_neg (by simpa using h)]

/-- Witness for `c6_base_dir_stripping` at the concrete paths of the
spec example. -/
theorem c6_base_dir_stripping_witness :
    "basedir/" ++ strip_base_dir ("basedir/file2.py") ("basedir/") = "basedir/file2.py"
    ∧ strip_base_dir ("file1.py") ("basedir/") = "file1.py" :=
  ⟨c6_base_dir_stripping.1 ("basedir/file2.py") ("basedir/") (by decide),
   c6_base_dir_stripping.2.1 ("file1.py") ("basedir/") (by decide)⟩

/-- C8: constructing the catalog maker fails exactly when an
explicitly supplied header template path does not exist in the file
system, and with no template it succeeds with the built-in default
header. -/
theorem c8_header_template_fatal :
    ∀ (fs : String → Option String) (ht : Option String),
      ((∃ e, potMakerInit ht fs = Except.error e)
        ↔ ∃ p, ht = some p ∧ fs p = none)
      ∧ potMakerInit none fs = Except.ok DEFAULT_POT_HEADER := by
  intro fs ht
  refine ⟨⟨fun h => ?_, fun h => ?_⟩, rfl⟩
  · obtain ⟨e, he⟩ := h
    match ht with
    | none => simp [potMakerInit] at he
    | some p =>
      refine ⟨p, rfl, ?_⟩
      cases hf : fs p with
      | none => rfl
      | some c => simp [potMakerInit, hf] at he
  · obtain ⟨p, hp, hf⟩ := h
    subst hp
    exact ⟨"Path " ++ p ++ " does not exist.", by simp [potMakerInit, hf]⟩

/-- C2 counterexample: after the tokens of `_('a', 'b')` up to the
close parenthesis, the message text `a` was committed by the comma and
no default was ever committed, so the claim predicts that `a` is
recorded with no default; the code instead records the leftover buffer
`b` as the default.  The last two conjuncts show that the finalize
trigger is any close parenthesis token rather than the one matching
the opening parenthesis of the call: in `_(('a')` the first close
parenthesis, which matches the inner parenthesis and not the one of
the call, already finalizes the call and returns the scanner to the
waiting state. -/
theorem c2_counterexample :
    finalizeMsg (eaterRun initEater
      [⟨TokType.NAME, "_", 1⟩, ⟨TokType.OP, "(", 1⟩,
       ⟨TokType.STRING, "\x27a\x27", 1⟩, ⟨TokType.OP, ",", 1⟩,
       ⟨TokType.STRING, "\x27b\x27", 1⟩]) = some ("a", some ("b"))
    ∧ finalizeClaimC2 (eaterRun initEater
      [⟨TokType.NAME, "_", 1⟩, ⟨TokType.OP, "(", 1⟩,
       ⟨TokType.STRING, "\x27a\x27", 1⟩, ⟨TokType.OP, ",", 1⟩,
       ⟨TokType.STRING, "\x27b\x27", 1⟩]) = some ("a", none)
    ∧ (eaterRun initEater
      [⟨TokType.NAME, "_", 1⟩, ⟨TokType.OP, "(", 1⟩,
       ⟨TokType.STRING, "\x27a\x27", 1⟩, ⟨TokType.OP, ",", 1⟩,
       ⟨TokType.STRING, "\x27b\x27", 1⟩, ⟨TokType.OP, ")", 1⟩]).messages
      = [(⟨"a", some ("b")⟩, [((none, 1), false)])]
    ∧ (eaterRun initEater
      [⟨TokType.NAME, "_", 1⟩, ⟨TokType.OP, "(", 1⟩, ⟨TokType.OP, "(", 1⟩,
       ⟨TokType.STRING, "\x27a\x27", 1⟩, ⟨TokType.OP, ")", 1⟩]).mode = Mode.waiting
    ∧ (eaterRun initEater
      [⟨TokType.NAME, "_", 1⟩, ⟨TokType.OP, "(", 1⟩, ⟨TokType.OP, "(", 1⟩,
       ⟨TokType.STRING, "\x27a\x27", 1⟩, ⟨TokType.OP, ")", 1⟩]).messages
      = [(⟨"a", none⟩, [((none, 1), false)])] :=
  ⟨by decide, by decide, by decide, by decide, by decide⟩

/-- C2 (amended): in the arguments-open state the scanner finalizes
the call exactly on an identifier token `mapping` or on any close
parenthesis operator token (parenthesis nesting is not tracked), and
the recorded entry is the one described by `finalizeSpecC2`: a
committed nonempty default is used with the committed message text;
otherwise a committed nonempty message text is used with the joined
leftover buffer as default when that buffer is non-empty and with no
default otherwise; otherwise the buffer becomes the message text with
no default; a call with nothing collected is discarded silently, the
message dictionary staying unchanged. -/
theorem c2_amended_finalize :
    ∀ (st : EaterSt) (t : Tok), st.mode = Mode.openseen →
      ((eaterStep st t).mode = Mode.waiting
        ↔ ((t.ttype = TokType.OP ∧ t.tstring = ")")
            ∨ (t.ttype = TokType.NAME ∧ t.tstring = "mapping")))
      ∧ (((t.ttype = TokType.OP ∧ t.tstring = ")")
            ∨ (t.ttype = TokType.NAME ∧ t.tstring = "mapping")) →
          (eaterStep st t).messages
            = match finalizeSpecC2 st with
              | some (m, d) =>
                addMsgEntry st.messages ⟨m, d⟩ (st.curfile, st.lineno) false
              | none => st.messages) := by
  intro st t hmode
  have hstep : eaterStep st t = openseenStep st t := by
    unfold eaterStep
    rw [hmode]
  rw [hstep]
  by_cases htr : (t.ttype = TokType.OP ∧ t.tstring = ")")
      ∨ (t.ttype = TokType.NAME ∧ t.tstring = "mapping")
  · have hopen : openseenStep st t = { finalizeCall st with mode := Mode.waiting } := by
      unfold openseenStep
      rw [if_pos htr]
    refine ⟨by simp [hopen, htr], fun _ => ?_⟩
    rw [hopen]
    show (finalizeCall st).messages = _
    unfold finalizeCall
    rw [finalizeMsg_eq_spec]
    cases finalizeSpecC2 st with
    | none => rfl
    | some md => cases md with
      | mk m d => rfl
  · have hmode2 : (openseenStep st t).mode = Mode.openseen := by
      unfold openseenStep
      rw [if_neg htr]
      split_ifs <;> simp [hmode]
    constructor
    · rw [hmode2]
      simp [htr]
    · intro h
      exact absurd h htr

/-- Witness for `c2_amended_finalize`: in the arguments-open state
with buffer `b` and committed message text `a`, a close parenthesis
token finalizes the call and records `a` with default `b`. -/
theorem c2_amended_finalize_witness :
    ((eaterStep ⟨[], Mode.openseen, ["b"], "a", none, 1, none⟩
        ⟨TokType.OP, ")", 1⟩).mode = Mode.waiting
      ↔ (((⟨TokType.OP, ")", 1⟩ : Tok).ttype = TokType.OP
            ∧ (⟨TokType.OP, ")", 1⟩ : Tok).tstring = ")")
          ∨ ((⟨TokType.OP, ")", 1⟩ : Tok).ttype = TokType.NAME
            ∧ (⟨TokType.OP, ")", 1⟩ : Tok).tstring = "mapping")))
    ∧ ((((⟨TokType.OP, ")", 1⟩ : Tok).ttype = TokType.OP
            ∧ (⟨TokType.OP, ")", 1⟩ : Tok).tstring = ")")
          ∨ ((⟨TokType.OP, ")", 1⟩ : Tok).ttype = TokType.NAME
            ∧ (⟨TokType.OP, ")", 1⟩ : Tok).tstring = "mapping")) →
        (eaterStep ⟨[], Mode.openseen, ["b"], "a", none, 1, none⟩
            ⟨TokType.OP, ")", 1⟩).messages
          = match finalizeSpecC2 ⟨[], Mode.openseen, ["b"], "a", none, 1, none⟩ with
            | some (m, d) =>
              addMsgEntry ([] : List (Msg × Occs)) ⟨m, d⟩ (none, 1) false
            | none => ([] : List (Msg × Occs))) :=
  c2_amended_finalize ⟨[], Mode.openseen, ["b"], "a", none, 1, none⟩
    ⟨TokType.OP, ")", 1⟩ rfl

/-- Helper: `__addentry` keeps the stored key objects (each `Msg` with
its default) unchanged when the text is already a key of the message
dictionary, and appends the new `Msg` at the end otherwise. -/
theorem addMsgEntry_map_fst (ms : List (Msg × Occs)) (m : Msg)
    (entry : Option String × Int) (b : Bool) :
    (addMsgEntry ms m entry b).map Prod.fst
      = if ∃ p ∈ ms, p.1.text = m.text then ms.map Prod.fst
        else ms.map Prod.fst ++ [m] := by
  have hfst : ∀ l : List (Msg × Occs),
      (l.map (fun p =>
        if p.1.text = m.text then
          (p.1,
            if p.2.any (fun q => decide (q.1 = entry)) then
              p.2.map (fun q => if q.1 = entry then (entry, b) else q)
            else p.2 ++ [(entry, b)])
        else p)).map Prod.fst = l.map Prod.fst := by
    intro l
    rw [List.map_map]
    refine List.map_congr_left fun p _ => ?_
    by_cases hc : p.1.text = m.text <;> simp [hc]
  by_cases h : ∃ p ∈ ms, p.1.text = m.text
  · have hany : ms.any (fun p => decide (p.1.text = m.text)) = true := by
      rw [List.any_eq_true]
      obtain ⟨p, hp, he⟩ := h
      exact ⟨p, hp, by simpa using he⟩
    rw [if_pos h]
    show ((if ms.any (fun p => decide (p.1.text = m.text)) then ms
        else ms ++ [(m, [])]).map _).map Prod.fst = _
    rw [hany]
    exact hfst ms
  · have hany : ms.any (fun p => decide (p.1.text = m.text)) = false := by
      rw [List.any_eq_false]
      intro p hp
      simp only [decide_eq_true_eq]
      intro he
      exact h ⟨p, hp, he⟩
    rw [if_neg h]
    show ((if ms.any (fun p => decide (p.1.text = m.text)) then ms
        else ms ++ [(m, [])]).map _).map Prod.fst = _
    rw [hany]
    show ((ms ++ [(m, [])]).map _).map Prod.fst = _
    rw [hfst (ms ++ [(m, [])]), List.map_append]
    rfl

/-- Helper: a fold preserves any observation that every single step
preserves. -/
theorem foldl_map_inv {α β γ : Type _} (g : β → α → β) (h : β → γ)
    (H : ∀ c a, h (g c a) = h c) : ∀ (l : List α) (c : β), h (l.foldl g c) = h c := by
  intro l
  induction l with
  | nil => intro c; rfl
  | cons a rest ih =>
    intro c
    rw [List.foldl_cons, ih, H]

/-- Helper: adding a location comment changes neither the key text nor
the stored default of any entry. -/
theorem catUpd_addLoc_meta (c : List POTEntry) (t fn : String) (ln : Int) :
    (catUpd c t (fun e => addLocationComment e fn ln)).map
        (fun e => (e.msgid, e.msgidDefault))
      = c.map (fun e => (e.msgid, e.msgidDefault)) := by
  unfold catUpd
  rw [List.map_map]
  refine List.map_congr_left fun e _ => ?_
  by_cases hc : e.msgid = t <;> simp [hc, addLocationComment]

/-- Helper: `POTMaker.add` for one mapping pair whose key text is
already in the catalog (or empty) keeps every entry key and default
unchanged. -/
theorem addOneMsg_meta_present (cat : List POTEntry) (m : Msg)
    (locs : List (String × Int)) (bd : Option String)
    (h : m.text = "" ∨ catHas cat m.text = true) :
    (addOneMsg cat m locs bd).map (fun e => (e.msgid, e.msgidDefault))
      = cat.map (fun e => (e.msgid, e.msgidDefault)) := by
  unfold addOneMsg
  by_cases h0 : m.text = ""
  · rw [if_pos h0]
  · have hh : catHas cat m.text = true := h.resolve_left h0
    rw [if_neg h0, hh]
    show ((locs.foldl _ (if true = true then cat else _)).map _) = _
    rw [if_pos rfl]
    exact foldl_map_inv _ _
      (fun c fl => catUpd_addLoc_meta c m.text _ fl.2) locs cat

/-- Helper: `POTMaker.add` for one mapping pair with a fresh nonempty
key text appends one entry carrying the key text and its default. -/
theorem addOneMsg_meta_fresh (cat : List POTEntry) (m : Msg)
    (locs : List (String × Int)) (bd : Option String)
    (h1 : m.text ≠ "") (h2 : catHas cat m.text = false) :
    (addOneMsg cat m locs bd).map (fun e => (e.msgid, e.msgidDefault))
      = cat.map (fun e => (e.msgid, e.msgidDefault)) ++ [(m.text, m.default)] := by
  unfold addOneMsg
  rw [if_neg h1, h2]
  show ((locs.foldl _ (if false = true then cat else _)).map _) = _
  rw [if_neg (by simp)]
  rw [foldl_map_inv _ _
    (fun c fl => catUpd_addLoc_meta c m.text _ fl.2) locs _]
  rw [List.map_append]
  rfl

/-- Helper: the key membership test only depends on the keys and
defaults of the catalog. -/
theorem catHas_eq_of_meta (c1 c2 : List POTEntry)
    (h : c1.map (fun e => (e.msgid, e.msgidDefault))
        = c2.map (fun e => (e.msgid, e.msgidDefault))) (t : String) :
    catHas c1 t = catHas c2 t := by
  have hh : ∀ c : List POTEntry,
      catHas c t
        = (c.map (fun e => (e.msgid, e.msgidDefault))).any
            (fun q => decide (q.1 = t)) := by
    intro c
    induction c with
    | nil => rfl
    | cons e rest ih =>
      rw [List.map_cons, List.any_cons,
        show catHas (e :: rest) t
          = (decide (e.msgid = t) || catHas rest t) from rfl,
        ih]
  rw [hh, hh, h]

/-- C4: whichever way the same message text is observed twice with two
different defaults, the second observation reuses the entry of the
first and leaves its default alone.  For the scanner: a second
`__addentry` with an already present text changes no stored key, and a
fresh text observed twice keeps the first `Msg` with its default `d1`.
For the catalog: two `add` calls with the same nonempty text and
defaults `d1` then `d2` leave one entry whose default is `d1`. -/
theorem c4_first_default_wins :
    (∀ (ms : List (Msg × Occs)) (t : String) (d1 d2 : Option String)
        (e1 e2 : Option String × Int) (b1 b2 : Bool),
      (¬ ∃ p ∈ ms, p.1.text = t) →
        (addMsgEntry (addMsgEntry ms ⟨t, d1⟩ e1 b1) ⟨t, d2⟩ e2 b2).map Prod.fst
          = ms.map Prod.fst ++ [⟨t, d1⟩])
    ∧ (∀ (ms : List (Msg × Occs)) (m : Msg) (entry : Option String × Int) (b : Bool),
        (∃ p ∈ ms, p.1.text = m.text) →
          (addMsgEntry ms m entry b).map Prod.fst = ms.map Prod.fst)
    ∧ (∀ (t : String) (d1 d2 : Option String) (l1 l2 : List (String × Int))
        (bd : Option String),
        t ≠ "" →
          (potAdd (potAdd [] [(⟨t, d1⟩, l1)] bd) [(⟨t, d2⟩, l2)] bd).map
              (fun e => (e.msgid, e.msgidDefault))
            = [(t, d1)]) := by
  refine ⟨fun ms t d1 d2 e1 e2 b1 b2 h => ?_, fun ms m entry b h => ?_,
    fun t d1 d2 l1 l2 bd ht => ?_⟩
  · have h1 : (addMsgEntry ms ⟨t, d1⟩ e1 b1).map Prod.fst
        = ms.map Prod.fst ++ [(⟨t, d1⟩ : Msg)] := by
      rw [addMsgEntry_map_fst, if_neg h]
    have h2 : ∃ p ∈ addMsgEntry ms ⟨t, d1⟩ e1 b1, p.1.text = (⟨t, d2⟩ : Msg).text := by
      have hmem : (⟨t, d1⟩ : Msg) ∈ (addMsgEntry ms ⟨t, d1⟩ e1 b1).map Prod.fst := by
        rw [h1]
        exact List.mem_append_right _ (List.mem_singleton.mpr rfl)
      obtain ⟨p, hp, hfst⟩ := List.mem_map.mp hmem
      exact ⟨p, hp, by rw [hfst]⟩
    rw [addMsgEntry_map_fst, if_pos h2, h1]
  · rw [addMsgEntry_map_fst, if_pos h]
  · have hstep1 : potAdd [] [(⟨t, d1⟩, l1)] bd = addOneMsg [] ⟨t, d1⟩ l1 bd := rfl
    have hmeta1 : (potAdd [] [(⟨t, d1⟩, l1)] bd).map
        (fun e => (e.msgid, e.msgidDefault)) = [(t, d1)] := by
      rw [hstep1, addOneMsg_meta_fresh [] ⟨t, d1⟩ l1 bd ht rfl]
      rfl
    have hhas : catHas (potAdd [] [(⟨t, d1⟩, l1)] bd) t = true := by
      have := catHas_eq_of_meta (potAdd [] [(⟨t, d1⟩, l1)] bd)
        [{ msgid := t, msgidDefault := d1, comments := "", locs := [] }]
        (by rw [hmeta1]; rfl) t
      rw [this]
      simp [catHas]
    have hstep2 : potAdd (potAdd [] [(⟨t, d1⟩, l1)] bd) [(⟨t, d2⟩, l2)] bd
        = addOneMsg (potAdd [] [(⟨t, d1⟩, l1)] bd) ⟨t, d2⟩ l2 bd := rfl
    rw [hstep2, addOneMsg_meta_present _ _ _ _ (Or.inr hhas), hmeta1]

/-- Witness for `c4_first_default_wins`: the text `a` observed with
default `x` and then with default `y` keeps the single key with
default `x`, in the scanner and in the catalog. -/
theorem c4_first_default_wins_witness :
    ((addMsgEntry (addMsgEntry [] ⟨"a", some ("x")⟩ (none, 1) false)
        ⟨"a", some ("y")⟩ (none, 2) false).map Prod.fst
      = ([] : List (Msg × Occs)).map Prod.fst ++ [⟨"a", some ("x")⟩])
    ∧ ((addMsgEntry ([(⟨"a", some ("x")⟩, [((none, 1), false)])] : List (Msg × Occs))
        ⟨"a", some ("y")⟩ (none, 2) false).map Prod.fst
      = ([(⟨"a", some ("x")⟩, [((none, 1), false)])] : List (Msg × Occs)).map Prod.fst)
    ∧ ((potAdd (potAdd [] [(⟨"a", some ("x")⟩, [("f.py", 1)])] none)
        [(⟨"a", some ("y")⟩, [("f.py", 2)])] none).map
          (fun e => (e.msgid, e.msgidDefault))
      = [("a", some ("x"))]) :=
  ⟨c4_first_default_wins.1 [] "a" (some ("x")) (some ("y")) (none, 1) (none, 2)
      false false (by decide),
   c4_first_default_wins.2.1
      ([(⟨"a", some ("x")⟩, [((none, 1), false)])] : List (Msg × Occs))
      ⟨"a", some ("y")⟩ (none, 2) false (by decide),
   c4_first_default_wins.2.2 "a" (some ("x")) (some ("y"))
      [("f.py", 1)] [("f.py", 2)] none (by decide)⟩

/-- Helper: for a nonempty key text, `POTMaker.add` of one mapping
pair is the per-entry `entryApply` mapped over the catalog, extended
first by a fresh entry when the key is new. -/
theorem addOneMsg_eq_map (cat : List POTEntry) (m : Msg)
    (locs : List (String × Int)) (bd : Option String) (h : m.text ≠ "") :
    addOneMsg cat m locs bd
      = (if catHas cat m.text then cat else cat ++ [mkPOTEntry m]).map
          (entryApply m.text locs bd) := by
  unfold addOneMsg
  rw [if_neg h]
  show locs.foldl _ (if catHas cat m.text = true then cat else cat ++ [mkPOTEntry m]) = _
  generalize (if catHas cat m.text = true then cat else cat ++ [mkPOTEntry m]) = base
  induction locs generalizing base with
  | nil =>
    show base = base.map (entryApply m.text [] bd)
    have he : entryApply m.text [] bd = fun e => e := funext fun e => rfl
    rw [he, List.map_id']
  | cons fl rest ih =>
    rw [List.foldl_cons, ih]
    unfold catUpd
    rw [List.map_map]
    refine List.map_congr_left fun e _ => ?_
    show entryApply m.text rest bd
        (if e.msgid = m.text then addLocationComment e (locFile bd fl) fl.2 else e)
      = entryApply m.text (fl :: rest) bd e
    rfl

/-- Helper: the location loop never changes the key of an entry. -/
theorem entryApply_msgid (t : String) (locs : List (String × Int))
    (bd : Option String) : ∀ e, (entryApply t locs bd e).msgid = e.msgid := by
  induction locs with
  | nil => intro e; rfl
  | cons fl rest ih =>
    intro e
    show (entryApply t rest bd
        (if e.msgid = t then addLocationComment e (locFile bd fl) fl.2 else e)).msgid
      = e.msgid
    rw [ih]
    by_cases hc : e.msgid = t <;> simp [hc, addLocationComment]

/-- Helper: the location loop never removes a stored location. -/
theorem entryApply_locs_mono (t : String) (locs : List (String × Int))
    (bd : Option String) :
    ∀ e x, x ∈ e.locs → x ∈ (entryApply t locs bd e).locs := by
  induction locs with
  | nil => intro e x hx; exact hx
  | cons fl rest ih =>
    intro e x hx
    show x ∈ (entryApply t rest bd
        (if e.msgid = t then addLocationComment e (locFile bd fl) fl.2 else e)).locs
    apply ih
    by_cases hc : e.msgid = t
    · rw [if_pos hc]
      unfold addLocationComment
      by_cases hm : (locFile bd fl, fl.2) ∈ e.locs
      · simpa [hm] using hx
      · simp only [if_neg hm]
        exact List.mem_append_left _ hx
    · rwa [if_neg hc]

/-- Helper: after the location loop, an entry carrying the key stores
every occurrence of the processed list. -/
theorem entryApply_adds (t : String) (locs : List (String × Int))
    (bd : Option String) :
    ∀ e, e.msgid = t → ∀ fl ∈ locs,
      (locFile bd fl, fl.2) ∈ (entryApply t locs bd e).locs := by
  induction locs with
  | nil => intro e _ fl hfl; cases hfl
  | cons fl0 rest ih =>
    intro e he fl hfl
    show _ ∈ (entryApply t rest bd
        (if e.msgid = t then addLocationComment e (locFile bd fl0) fl0.2 else e)).locs
    rcases List.mem_cons.mp hfl with h | h
    · subst h
      apply entryApply_locs_mono
      rw [if_pos he]
      unfold addLocationComment
      by_cases hm : (locFile bd fl, fl.2) ∈ e.locs
      · simp [hm]
      · simp only [if_neg hm]
        exact List.mem_append_right _ (List.mem_singleton.mpr rfl)
    · refine ih _ ?_ fl h
      by_cases hc : e.msgid = t <;> simp [hc, addLocationComment, he]

/-- Helper: the location loop is the identity on an entry that does
not carry the key or that already stores every occurrence. -/
theorem entryApply_id (t : String) (locs : List (String × Int))
    (bd : Option String) :
    ∀ e, (e.msgid ≠ t ∨ ∀ fl ∈ locs, (locFile bd fl, fl.2) ∈ e.locs) →
      entryApply t locs bd e = e := by
  induction locs with
  | nil => intro e _; rfl
  | cons fl rest ih =>
    intro e h
    show entryApply t rest bd
        (if e.msgid = t then addLocationComment e (locFile bd fl) fl.2 else e) = e
    rcases h with h | h
    · rw [if_neg h]
      exact ih e (Or.inl h)
    · have hmem : (locFile bd fl, fl.2) ∈ e.locs := h fl (List.mem_cons_self _ _)
      have hrest : ∀ fl2 ∈ rest, (locFile bd fl2, fl2.2) ∈ e.locs :=
        fun fl2 hfl2 => h fl2 (List.mem_cons_of_mem _ hfl2)
      by_cases hc : e.msgid = t
      · rw [if_pos hc, show addLocationComment e (locFile bd fl) fl.2 = e by
          simp [addLocationComment, hmem]]
        exact ih e (Or.inr hrest)
      · rw [if_neg hc]
        exact ih e (Or.inl hc)

/-- Helper: the key membership test is unchanged by the location
loop. -/
theorem catHas_map_entryApply (l : List POTEntry) (t : String)
    (locs : List (String × Int)) (bd : Option String) (t2 : String) :
    catHas (l.map (entryApply t locs bd)) t2 = catHas l t2 := by
  induction l with
  | nil => rfl
  | cons e rest ih =>
    show (decide ((entryApply t locs bd e).msgid = t2)
        || (rest.map (entryApply t locs bd)).any (fun x => decide (x.msgid = t2)))
      = (decide (e.msgid = t2) || rest.any (fun x => decide (x.msgid = t2)))
    rw [entryApply_msgid]
    exact congrArg _ ih

/-- Helper: `POTMaker.add` of one pair leaves the pair fully merged. -/
theorem addOneMsg_done (cat : List POTEntry) (m : Msg)
    (locs : List (String × Int)) (bd : Option String) :
    AddDone (addOneMsg cat m locs bd) (m, locs) bd := by
  by_cases h : m.text = ""
  · exact Or.inl h
  · refine Or.inr ⟨?_, ?_⟩
    · rw [addOneMsg_eq_map cat m locs bd h, catHas_map_entryApply]
      by_cases h2 : catHas cat m.text
      · rwa [if_pos h2]
      · rw [if_neg h2]
        show (cat ++ [mkPOTEntry m]).any _ = true
        rw [List.any_append]
        simp [mkPOTEntry]
    · intro fl hfl e he hme
      rw [addOneMsg_eq_map cat m locs bd h] at he
      obtain ⟨e1, _, rfl⟩ := List.mem_map.mp he
      refine entryApply_adds _ _ _ e1 ?_ fl hfl
      rw [← entryApply_msgid m.text locs bd e1]
      exact hme

/-- Helper: a fully merged pair stays fully merged through a later
`POTMaker.add` of any other pair. -/
theorem addOneMsg_preserves_done (cat : List POTEntry)
    (p : Msg × List (String × Int)) (bd : Option String) (q : Msg)
    (locs2 : List (String × Int)) (h : AddDone cat p bd) :
    AddDone (addOneMsg cat q locs2 bd) p bd := by
  rcases h with h | ⟨hhas, hmem⟩
  · exact Or.inl h
  · by_cases hq : q.text = ""
    · rw [show addOneMsg cat q locs2 bd = cat by
        unfold addOneMsg
        rw [if_pos hq]]
      exact Or.inr ⟨hhas, hmem⟩
    · rw [addOneMsg_eq_map cat q locs2 bd hq]
      refine Or.inr ⟨?_, ?_⟩
      · rw [catHas_map_entryApply]
        by_cases h2 : catHas cat q.text
        · rwa [if_pos h2]
        · rw [if_neg h2]
          show (cat ++ [mkPOTEntry q]).any _ = true
          rw [List.any_append]
          rw [show catHas cat p.1.text = cat.any (fun x => decide (x.msgid = p.1.text)) from rfl] at hhas
          rw [hhas]
          rfl
      · intro fl hfl e he hme
        obtain ⟨e1, he1, rfl⟩ := List.mem_map.mp he
        have hm1 : e1.msgid = p.1.text := by
          rw [← entryApply_msgid q.text locs2 bd e1]
          exact hme
        apply entryApply_locs_mono
        by_cases h2 : catHas cat q.text
        · rw [if_pos h2] at he1
          exact hmem fl hfl e1 he1 hm1
        · rw [if_neg h2] at he1
          rcases List.mem_append.mp he1 with he1 | he1
          · exact hmem fl hfl e1 he1 hm1
          · exfalso
            rw [List.mem_singleton.mp he1] at hm1
            have : catHas cat q.text = true := by
              rw [show (mkPOTEntry q).msgid = q.text from rfl] at hm1
              rw [hm1]
              exact hhas
            rw [this] at h2
            exact h2 rfl

/-- Helper: `POTMaker.add` of one already fully merged pair changes
nothing at all. -/
theorem addOneMsg_of_done (cat : List POTEntry) (m : Msg)
    (locs : List (String × Int)) (bd : Option String)
    (h : AddDone cat (m, locs) bd) : addOneMsg cat m locs bd = cat := by
  by_cases h0 : m.text = ""
  · unfold addOneMsg
    rw [if_pos h0]
  · rcases h with h | ⟨hhas, hmem⟩
    · exact absurd h h0
    · rw [addOneMsg_eq_map cat m locs bd h0, if_pos hhas]
      have hid : ∀ e ∈ cat, entryApply m.text locs bd e = e := by
        intro e he
        refine entryApply_id _ _ _ e ?_
        by_cases hc : e.msgid = m.text
        · exact Or.inr fun fl hfl => hmem fl hfl e he hc
        · exact Or.inl hc
      rw [List.map_congr_left hid, List.map_id']

/-- Helper: a fully merged pair stays fully merged through any later
sequence of `POTMaker.add` calls. -/
theorem potAdd_preserves_done (ss : List (Msg × List (String × Int)))
    (bd : Option String) (p : Msg × List (String × Int)) :
    ∀ cat, AddDone cat p bd → AddDone (potAdd cat ss bd) p bd := by
  induction ss with
  | nil => intro cat h; exact h
  | cons q rest ih =>
    intro cat h
    exact ih _ (addOneMsg_preserves_done cat p bd q.1 q.2 h)

/-- Helper: after `POTMaker.add` of a whole mapping every pair of the
mapping is fully merged. -/
theorem potAdd_all_done (ss : List (Msg × List (String × Int)))
    (bd : Option String) :
    ∀ cat, ∀ p ∈ ss, AddDone (potAdd cat ss bd) p bd := by
  induction ss with
  | nil => intro cat p hp; cases hp
  | cons q rest ih =>
    intro cat p hp
    rcases List.mem_cons.mp hp with rfl | hp2
    · exact potAdd_preserves_done rest bd p _ (addOneMsg_done cat p.1 p.2 bd)
    · exact ih _ p hp2

/-- Helper: `POTMaker.add` is the identity on a catalog into which
every pair of the mapping is already fully merged. -/
theorem potAdd_of_done (bd : Option String) :
    ∀ (ss : List (Msg × List (String × Int))) (cat : List POTEntry),
      (∀ p ∈ ss, AddDone cat p bd) → potAdd cat ss bd = cat := by
  intro ss
  induction ss with
  | nil => intro cat _; rfl
  | cons q rest ih =>
    intro cat h
    show potAdd (addOneMsg cat q.1 q.2 bd) rest bd = cat
    rw [addOneMsg_of_done cat q.1 q.2 bd (h q (List.mem_cons_self _ _))]
    exact ih cat fun p hp => h p (List.mem_cons_of_mem _ hp)

/-- Helper: one location comment insertion keeps the stored location
list free of duplicates. -/
theorem addLocationComment_nodup (e : POTEntry) (fn : String) (ln : Int)
    (h : e.locs.Nodup) : (addLocationComment e fn ln).locs.Nodup := by
  unfold addLocationComment
  by_cases hm : (fn, ln) ∈ e.locs
  · simpa [hm] using h
  · simp only [if_neg hm]
    rw [List.nodup_append]
    exact ⟨h, List.nodup_singleton _, by simpa [List.disjoint_singleton] using hm⟩

/-- Helper: the location loop keeps every location list free of
duplicates. -/
theorem entryApply_nodup (t : String) (locs : List (String × Int))
    (bd : Option String) :
    ∀ e : POTEntry, e.locs.Nodup → (entryApply t locs bd e).locs.Nodup := by
  induction locs with
  | nil => intro e h; exact h
  | cons fl rest ih =>
    intro e h
    show ((entryApply t rest bd
      (if e.msgid = t then addLocationComment e (locFile bd fl) fl.2 else e)).locs).Nodup
    apply ih
    by_cases hc : e.msgid = t
    · rw [if_pos hc]
      exact addLocationComment_nodup e _ _ h
    · rwa [if_neg hc]

/-- Helper: `POTMaker.add` keeps every location list free of
duplicates. -/
theorem potAdd_nodup (bd : Option String) :
    ∀ (ss : List (Msg × List (String × Int))) (cat : List POTEntry),
      (∀ e ∈ cat, e.locs.Nodup) → ∀ e2 ∈ potAdd cat ss bd, e2.locs.Nodup := by
  intro ss
  induction ss with
  | nil => intro cat h e2 he2; exact h e2 he2
  | cons q rest ih =>
    intro cat h e2 he2
    refine ih (addOneMsg cat q.1 q.2 bd) ?_ e2 he2
    intro e3 he3
    by_cases h0 : q.1.text = ""
    · rw [show addOneMsg cat q.1 q.2 bd = cat by
        unfold addOneMsg
        rw [if_pos h0]] at he3
      exact h e3 he3
    · rw [addOneMsg_eq_map cat q.1 q.2 bd h0] at he3
      obtain ⟨e1, he1, rfl⟩ := List.mem_map.mp he3
      refine entryApply_nodup _ _ _ e1 ?_
      by_cases h2 : catHas cat q.1.text
      · rw [if_pos h2] at he1
        exact h e1 he1
      · rw [if_neg h2] at he1
        rcases List.mem_append.mp he1 with he1 | he1
        · exact h e1 he1
        · rw [List.mem_singleton.mp he1]
          exact List.nodup_nil

/-- C5: catalog merging is idempotent: a second `add` of the same
mapping leaves the catalog state (in particular the stored location
set of every entry) exactly as after the first; `add` keeps every
stored location list duplicate-free, and for a duplicate-free store
the sorted `locations` tuple lists every stored `(file, line)` pair
exactly once, so each pair yields exactly one `#:` line. -/
theorem c5_add_idempotent :
    (∀ (strings : List (Msg × List (String × Int))) (bd : Option String)
        (cat : List POTEntry),
      potAdd (potAdd cat strings bd) strings bd = potAdd cat strings bd)
    ∧ (∀ (strings : List (Msg × List (String × Int))) (bd : Option String)
        (cat : List POTEntry),
        (∀ e ∈ cat, e.locs.Nodup) → ∀ e2 ∈ potAdd cat strings bd, e2.locs.Nodup)
    ∧ (∀ e : POTEntry, e.locs.Nodup →
        (locations e).Nodup ∧ ∀ x, x ∈ locations e ↔ x ∈ e.locs) := by
  refine ⟨fun ss bd cat => ?_, fun ss bd cat h => potAdd_nodup bd ss cat h, fun e h => ?_⟩
  · exact potAdd_of_done bd ss (potAdd cat ss bd) (potAdd_all_done ss bd cat)
  · have hperm : List.Perm (locations e) e.locs := List.perm_insertionSort pairLeP e.locs
    exact ⟨h.perm hperm.symm, fun x => hperm.mem_iff⟩

/-- Witness for `c5_add_idempotent` at a concrete mapping and catalog. -/
theorem c5_add_idempotent_witness :
    potAdd (potAdd [] [(⟨"a", none⟩, [("f.py", 1), ("f.py", 1)])] none)
        [(⟨"a", none⟩, [("f.py", 1), ("f.py", 1)])] none
      = potAdd [] [(⟨"a", none⟩, [("f.py", 1), ("f.py", 1)])] none
    ∧ (∀ e2 ∈ potAdd [] [(⟨"a", none⟩, [("f.py", 1), ("f.py", 1)])] none,
        e2.locs.Nodup)
    ∧ ((locations ⟨"a", none, "", [("f.py", 1)]⟩).Nodup
        ∧ ∀ x, x ∈ locations ⟨"a", none, "", [("f.py", 1)]⟩
            ↔ x ∈ (⟨"a", none, "", [("f.py", 1)]⟩ : POTEntry).locs) :=
  ⟨c5_add_idempotent.1 [(⟨"a", none⟩, [("f.py", 1), ("f.py", 1)])] none [],
   c5_add_idempotent.2.1 [(⟨"a", none⟩, [("f.py", 1), ("f.py", 1)])] none []
     (by intro e he; cases he),
   c5_add_idempotent.2.2 ⟨"a", none, "", [("f.py", 1)]⟩ (by decide)⟩

/-- Helper: the sort relation of `POTMaker.write` relates the strict
comparison `POTEntry.__lt__` to the key order. -/
theorem entryLt_iff (a b : POTEntry) :
    entryLt a b = true ↔ entryKey a < entryKey b := by
  simp [entryLt]

/-- Helper: the emission order of `POTMaker.write` is sorted by the
comparison key. -/
theorem writeOrder_sorted (cat : List POTEntry) :
    (writeOrder cat).Pairwise (fun a b => entryKey a ≤ entryKey b) := by
  haveI : IsTotal POTEntry entryLeP := ⟨fun a b => le_total (entryKey a) (entryKey b)⟩
  haveI : IsTrans POTEntry entryLeP := ⟨fun a b c hab hbc => le_trans hab hbc⟩
  exact List.sorted_insertionSort entryLeP cat

/-- C3: `POTMaker.write` emits a permutation of the catalog entries in
which, for every pair of written entries, the one with the smaller
lexicographic key `(sorted location tuple, message text)` is written
first: ordering is primarily by the full sorted location tuple and
only within equal location tuples by message text. -/
theorem c3_write_sorted :
    ∀ cat : List POTEntry,
      List.Perm (writeOrder cat) cat
      ∧ (writeOrder cat).Pairwise (fun a b => entryKey a ≤ entryKey b) :=
  fun cat => ⟨List.perm_insertionSort entryLeP cat, writeOrder_sorted cat⟩

/-- Helper: the byte rendering of one entry depends only on its text,
default, comments and sorted occurrence tuple. -/
theorem entryWriteBytes_canon (a b : POTEntry) (h : canonEntry a = canonEntry b) :
    entryWriteBytes a = entryWriteBytes b := by
  have h1 : a.msgid = b.msgid := congrArg (fun c => c.1) h
  have h2 : a.msgidDefault = b.msgidDefault := congrArg (fun c => c.2.1) h
  have h3 : a.comments = b.comments := congrArg (fun c => c.2.2.1) h
  have h4 : locations a = locations b := congrArg (fun c => c.2.2.2) h
  unfold entryWriteBytes
  rw [h1, h2, h3, h4]

/-- Helper: byte renderings coincide for lists with the same canonical
entries. -/
theorem map_write_eq_of_canon :
    ∀ l1 l2 : List POTEntry,
      l1.map canonEntry = l2.map canonEntry →
      l1.map entryWriteBytes = l2.map entryWriteBytes := by
  intro l1
  induction l1 with
  | nil =>
    intro l2 h
    cases l2 with
    | nil => rfl
    | cons b t => simp at h
  | cons a t ih =>
    intro l2 h
    cases l2 with
    | nil => simp at h
    | cons b t2 =>
      simp only [List.map_cons, List.cons.injEq] at h ⊢
      exact ⟨entryWriteBytes_canon a b h.1, ih t2 h.2⟩

/-- Helper: equal comparison keys force equal message texts. -/
theorem canonKey_msgid (x y : String × Option String × String × List (String × Int))
    (h : canonKey x = canonKey y) : x.1 = y.1 := by
  have h2 := congrArg (fun z => (ofLex z).2) h
  simpa [canonKey] using h2

/-- Helper: with all message texts distinct, sorting the catalog
determines the canonical entry sequence uniquely. -/
theorem writeOrder_canon_eq (c1 c2 : List POTEntry)
    (hperm : List.Perm (c1.map canonEntry) (c2.map canonEntry))
    (hnd : (c1.map (fun e => e.msgid)).Nodup) :
    (writeOrder c1).map canonEntry = (writeOrder c2).map canonEntry := by
  have hmsgid : ∀ c : List POTEntry,
      c.map (fun e => e.msgid) = (c.map canonEntry).map (fun q => q.1) := by
    intro c
    rw [List.map_map]
    rfl
  have hnd2 : (c2.map (fun e => e.msgid)).Nodup := by
    rw [hmsgid] at hnd ⊢
    exact (hnd.perm (hperm.map (fun q => q.1)))
  have hpw : ∀ c : List POTEntry, (c.map (fun e => e.msgid)).Nodup →
      ((writeOrder c).map canonEntry).Pairwise
        (fun x y => canonKey x < canonKey y) := by
    intro c hc
    have hne : c.Pairwise (fun a b => a.msgid ≠ b.msgid) := by
      have := hc
      rw [List.Nodup, List.pairwise_map] at this
      exact this
    have hne2 : (writeOrder c).Pairwise (fun a b => a.msgid ≠ b.msgid) :=
      hne.perm (List.perm_insertionSort entryLeP c).symm fun h h2 => h h2.symm
    have hs : (writeOrder c).Pairwise
        (fun a b => entryKey a ≤ entryKey b ∧ a.msgid ≠ b.msgid) :=
      (writeOrder_sorted c).and hne2
    rw [List.pairwise_map]
    refine hs.imp ?_
    intro a b hab
    refine lt_of_le_of_ne hab.1 fun hk => hab.2 ?_
    exact canonKey_msgid (canonEntry a) (canonEntry b) hk
  have hews : List.Perm ((writeOrder c1).map canonEntry)
      ((writeOrder c2).map canonEntry) := by
    refine ((List.perm_insertionSort entryLeP c1).map canonEntry).trans
      (hperm.trans ((List.perm_insertionSort entryLeP c2).map canonEntry).symm)
  haveI hanti : IsAntisymm (String × Option String × String × List (String × Int))
      (fun x y => canonKey x < canonKey y ∨ x = y) := by
    refine ⟨fun x y hxy hyx => ?_⟩
    rcases hxy with hxy | hxy
    · rcases hyx with hyx | hyx
      · exact absurd hxy (lt_asymm hyx)
      · exact hyx.symm
    · exact hxy
  have hs1 : ((writeOrder c1).map canonEntry).Pairwise
      (fun x y => canonKey x < canonKey y ∨ x = y) :=
    (hpw c1 hnd).imp fun h => Or.inl h
  have hs2 : ((writeOrder c2).map canonEntry).Pairwise
      (fun x y => canonKey x < canonKey y ∨ x = y) :=
    (hpw c2 hnd2).imp fun h => Or.inl h
  exact List.eq_of_perm_of_sorted hews hs1 hs2

/-- C7: rendering the entries is deterministic in the catalog
contents: if two catalogs hold the same entries (same texts, defaults,
comments and occurrence sets, in any order, as expressed through their
canonical entries) and the texts are distinct (as the dict keyed by
text guarantees), the emitted bytes are identical. -/
theorem c7_render_deterministic :
    ∀ c1 c2 : List POTEntry,
      List.Perm (c1.map canonEntry) (c2.map canonEntry) →
      (c1.map (fun e => e.msgid)).Nodup →
      writeEntriesBytes c1 = writeEntriesBytes c2 := by
  intro c1 c2 hperm hnd
  unfold writeEntriesBytes
  rw [map_write_eq_of_canon (writeOrder c1) (writeOrder c2)
    (writeOrder_canon_eq c1 c2 hperm hnd)]

/-- Witness for `c7_render_deterministic`: two insertion orders of the
same two entries render byte-identically. -/
theorem c7_render_deterministic_witness :
    writeEntriesBytes [⟨"a", none, "", [("f", 1)]⟩, ⟨"b", none, "", []⟩]
      = writeEntriesBytes [⟨"b", none, "", []⟩, ⟨"a", none, "", [("f", 1)]⟩] :=
  c7_render_deterministic
    [⟨"a", none, "", [("f", 1)]⟩, ⟨"b", none, "", []⟩]
    [⟨"b", none, "", []⟩, ⟨"a", none, "", [("f", 1)]⟩]
    (by decide) (by decide)

/-- Helper: dropping a second time removes nothing. -/
theorem dropWhile_dropWhile {α : Type _} (p : α → Bool) (l : List α) :
    (l.dropWhile p).dropWhile p = l.dropWhile p := by
  cases h : l.dropWhile p with
  | nil => rfl
  | cons a t =>
    have ha := List.head?_dropWhile_not p l
    rw [h] at ha
    simp only [List.head?_cons] at ha
    simp [List.dropWhile_cons, ha]

/-- Helper: a list whose first element fails the predicate is left
whole by `dropWhile`. -/
theorem dropWhile_of_head_false {α : Type _} (p : α → Bool) (l : List α)
    (h : ∀ a, l.head? = some a → p a = false) : l.dropWhile p = l := by
  cases l with
  | nil => rfl
  | cons a t =>
    have := h a rfl
    simp [List.dropWhile_cons, this]

/-- Helper: Python `str.strip()` is idempotent. -/
theorem pyStrip_idem (s : String) : pyStrip (pyStrip s) = pyStrip s := by
  unfold pyStrip
  show String.mk ((((((s.data.dropWhile pySpace).reverse.dropWhile
      pySpace).reverse).dropWhile pySpace).reverse.dropWhile pySpace).reverse) = _
  have hB : ∀ a, (s.data.dropWhile pySpace).head? = some a → pySpace a = false := by
    intro a ha
    have := List.head?_dropWhile_not pySpace s.data
    rw [ha] at this
    exact this
  have fact1 : (((s.data.dropWhile pySpace).reverse.dropWhile
      pySpace).reverse).dropWhile pySpace
      = ((s.data.dropWhile pySpace).reverse.dropWhile pySpace).reverse := by
    refine dropWhile_of_head_false pySpace _ ?_
    intro a ha
    rw [List.head?_reverse] at ha
    obtain ⟨t, ht⟩ :=
      (List.dropWhile_suffix (l := (s.data.dropWhile pySpace).reverse) pySpace)
    have hlast : ((s.data.dropWhile pySpace).reverse).getLast? = some a := by
      rw [← ht, List.getLast?_append, ha]
      rfl
    rw [List.getLast?_reverse] at hlast
    exact hB a hlast
  rw [fact1, List.reverse_reverse, dropWhile_dropWhile]

/-- Helper: Python `str.strip()` of an all-whitespace string is the
empty string. -/
theorem pyStrip_all_space (s : String) (h : ∀ c ∈ s.data, pySpace c) :
    pyStrip s = "" := by
  unfold pyStrip
  rw [List.dropWhile_eq_nil_iff.mpr h]
  rfl

/-- C10: the `#. Default:` comment block strips surrounding whitespace
from the default text before escaping and emitting it, so the emitted
block only depends on the stripped default: defaults that differ only
in surrounding whitespace render identically, and a default consisting
only of whitespace renders as the single line `#. Default: ""`. -/
theorem c10_default_whitespace :
    (∀ d : String, defaultCommentBytes d = defaultCommentBytes (pyStrip d))
    ∧ (∀ d1 d2 : String, pyStrip d1 = pyStrip d2 →
        defaultCommentBytes d1 = defaultCommentBytes d2)
    ∧ (∀ d : String, (∀ c ∈ d.data, pySpace c) →
        defaultCommentBytes d = utf8 ("#. Default: \"\"\n")) := by
  have hpipe : ∀ d : String, defaultCommentBytes d = defaultCommentBytes (pyStrip d) := by
    intro d
    unfold defaultCommentBytes
    rw [pyStrip_idem]
  refine ⟨hpipe, fun d1 d2 h => ?_, fun d h => ?_⟩
  · rw [hpipe d1, hpipe d2, h]
  · rw [hpipe d, pyStrip_all_space d h]
    decide

/-- Witness for `c10_default_whitespace`: the defaults `" x"` and
`"x\t"` render the same block, and the all-whitespace default renders
the single `#. Default: ""` line. -/
theorem c10_default_whitespace_witness :
    defaultCommentBytes (" x") = defaultCommentBytes ("x\t")
    ∧ defaultCommentBytes (" \t ") = utf8 ("#. Default: \"\"\n") :=
  ⟨c10_default_whitespace.2.1 (" x") ("x\t") (by decide),
   c10_default_whitespace.2.2 (" \t ") (by decide)⟩

end ZopeLocales
